import Mathlib

/-!
Verification of the `LowStation` core of ska_ost_sim_low_station_beam.

The Python source (src/ska_ost_sim_low_station_beam/LowStation.py) is shallowly
embedded below.  External collaborators (the array-configuration oracle, the
per-station coordinate CSV tables, and the ECEF-to-ENU transform from
ska_sdp_datamodels) are modelled as an `Externals` record of functions.
Machine floats are idealised as rationals; the comparison
`numpy.sqrt(e^2 + n^2) < d` is embedded through its exact real-number
characterisation (proved against `Real.sqrt` below).
-/

/-- One 3-vector of coordinates (metres), used for both ECEF and ENU points. -/
structure P3 where
  x : ℚ
  y : ℚ
  z : ℚ
  deriving DecidableEq

/-- An astropy quantity: a value, the physical dimension of its unit, and the
scale factor converting the value to the SI base unit of that dimension.
`unit.is_equivalent(units.m)` is modelled as `unitDim = "length"`, and
`q.to(units.m).value` as `value * unitScale`. -/
structure Quantity where
  value : ℚ
  unitDim : String
  unitScale : ℚ
  deriving DecidableEq

/-- The distance argument of the query methods: a bare float (metres) or an
astropy quantity. -/
inductive DistArg where
  | float (v : ℚ)
  | qty (q : Quantity)
  deriving DecidableEq

/-- The error taxonomy.  The Python code raises ValueError everywhere; the
constructors carry the data interpolated into the corresponding message.
`missingCatalog` models the I/O failure of `pandas.read_csv` on a
non-existent coordinates file; `internalIndexError` models an out-of-range
numpy index (unreachable for stations built by the constructor). -/
inductive StationError where
  | unknownStation (stationType : String)
  | emptySelection (pattern : String)
  | incompatibleUnit (q : Quantity)
  | unknownAntenna (name : String)
  | invalidLFAA (name station : String)
  | missingCatalog (name : String)
  | internalIndexError
  deriving DecidableEq

deriving instance DecidableEq for Except

/-- The external collaborators of the core:
`validNames` is `LowSubArray(subarray_type="AA1").array_config.names`;
`catalog` returns the rows (antenna name, ECEF vector) of the per-station
coordinates table, `none` when no table exists for that name;
`rotationOf` is `get_low_station_rotation`;
`toEnu s` is `ecef_to_enu(get_low_station_coordinates(s), .)`, applied
row-wise (the transform is an affine map applied to each point). -/
structure Externals where
  validNames : List String
  catalog : String → Option (List (String × P3))
  rotationOf : String → ℚ
  toEnu : String → P3 → P3

/-- `VALID_STATION_TYPES` from the source: the external AA1 names plus the
literal tag "substation". -/
def VALID_STATION_TYPES (ext : Externals) : List String :=
  ext.validNames ++ ["substation"]

/-- Python `str.split(",")` on the character list; never returns `[]`
(splitting the empty string yields `[[]]`, as in Python). -/
def splitCommaAux : List Char → List (List Char)
  | [] => [[]]
  | ',' :: rest => [] :: splitCommaAux rest
  | c :: rest =>
    match splitCommaAux rest with
    | [] => [[c]]
    | g :: gs => (c :: g) :: gs

/-- Python `s.split(",")`. -/
def splitComma (s : String) : List String :=
  (splitCommaAux s.data).map (fun cs => String.mk cs)

/-- Python `",".join(l)`. -/
def joinComma (l : List String) : String :=
  String.intercalate "," l

/-- Membership of a character in a parsed fnmatch character class, given as a
list of inclusive ranges (a single character `c` is the range `(c, c)`). -/
def matchClass (items : List (Char × Char)) (neg : Bool) (c : Char) : Bool :=
  let inSet := items.any (fun ab => ab.1 ≤ c && c ≤ ab.2)
  if neg then !inSet else inSet

/-- Parse the body of an fnmatch character class into inclusive ranges,
following regex class semantics: `a-b` is a range, a trailing or leading
`-` is literal. -/
def parseClassItems : List Char → List (Char × Char)
  | [] => []
  | a :: '-' :: b :: rest => (a, b) :: parseClassItems rest
  | a :: rest => (a, a) :: parseClassItems rest

/-- Scan for the closing `]` of a character class, returning the class body
and the remainder of the pattern. -/
def findClose : List Char → Option (List Char × List Char)
  | [] => none
  | ']' :: rest => some ([], rest)
  | c :: rest =>
    match findClose rest with
    | none => none
    | some (content, remainder) => some (c :: content, remainder)

/-- Split a pattern immediately after `[` into (negated?, class body, rest),
with fnmatch's quirks: a leading `!` negates, and a `]` directly after `[`
(or after `[!`) is part of the body.  `none` when the class is unclosed,
in which case `[` is treated as a literal character. -/
def splitClass (ps : List Char) : Option (Bool × List Char × List Char) :=
  match ps with
  | '!' :: ps1 =>
    match ps1 with
    | ']' :: ps2 =>
      match findClose ps2 with
      | none => none
      | some (content, remainder) => some (true, ']' :: content, remainder)
    | _ =>
      match findClose ps1 with
      | none => none
      | some (content, remainder) => some (true, content, remainder)
  | _ =>
    match ps with
    | ']' :: ps2 =>
      match findClose ps2 with
      | none => none
      | some (content, remainder) => some (false, ']' :: content, remainder)
    | _ =>
      match findClose ps with
      | none => none
      | some (content, remainder) => some (false, content, remainder)

/-- Fuelled shell-glob matcher (Python `fnmatch.fnmatch` on a case-sensitive
filesystem): `*` matches any sequence, `?` any single character, `[...]` and
`[!...]` character classes; an unclosed `[` is literal.  Every recursive call
strictly decreases the combined length of pattern and subject, so the fuel
used by `globMatch` below never runs out. -/
def globMatchF : Nat → List Char → List Char → Bool
  | 0, _, _ => false
  | _ + 1, [], s => s.isEmpty
  | fuel + 1, c :: ps, s =>
    if c = '*' then
      globMatchF fuel ps s ||
        (match s with
         | [] => false
         | _ :: srest => globMatchF fuel (c :: ps) srest)
    else if c = '?' then
      match s with
      | [] => false
      | _ :: srest => globMatchF fuel ps srest
    else if c = '[' then
      match splitClass ps with
      | some (neg, content, rest) =>
        (match s with
         | [] => false
         | d :: srest => matchClass (parseClassItems content) neg d && globMatchF fuel rest srest)
      | none =>
        (match s with
         | [] => false
         | d :: srest => (c = d) && globMatchF fuel ps srest)
    else
      match s with
      | [] => false
      | d :: srest => (c = d) && globMatchF fuel ps srest

/-- `fnmatch.fnmatch(source, pattern)` (full-name anchored glob match). -/
def globMatch (pattern source : List Char) : Bool :=
  globMatchF (pattern.length + source.length + 1) pattern source

/-- `fnmatch.filter(names, pattern)`: the sublist of `names` matching the
glob `pattern`, in the order of `names`. -/
def fnmatchFilter (names : List String) (pattern : String) : List String :=
  names.filter (fun n => globMatch pattern.data n.data)

/-- Fuelled matcher for the fragment of Python `re.fullmatch` exercised by
`get_lfaa_coordinates`: literal characters, `.` (any single character) and a
postfix `*` (zero or more of the preceding atom), anchored at both ends.
Every recursive call strictly decreases the combined length of pattern and
subject, so the fuel used by `reMatch` below never runs out. -/
def reMatchF : Nat → List Char → List Char → Bool
  | 0, _, _ => false
  | _ + 1, [], s => s.isEmpty
  | fuel + 1, c :: ps, s =>
    match ps with
    | '*' :: ps2 =>
      reMatchF fuel ps2 s ||
        (match s with
         | [] => false
         | d :: srest => (c = '.' || c = d) && reMatchF fuel (c :: ps) srest)
    | _ =>
      match s with
      | [] => false
      | d :: srest => (c = '.' || c = d) && reMatchF fuel ps srest

/-- `re.fullmatch(pattern, source)` (restricted fragment, see `reMatchF`). -/
def reMatch (pattern source : List Char) : Bool :=
  reMatchF (pattern.length + source.length + 1) pattern source

/-- Python `list.index`: index of the first occurrence, `none` when absent. -/
def indexOfName : List String → String → Option Nat
  | [], _ => none
  | n :: ns, r => if n = r then some 0 else (indexOfName ns r).map (fun i => i + 1)

/-- Lexicographic (code-point) strict order on character lists: the order
Python string comparison uses.  Proved equivalent to the library order on
`String` in `ltStr_iff` below. -/
def ltChars : List Char → List Char → Bool
  | [], [] => false
  | [], _ :: _ => true
  | _ :: _, [] => false
  | a :: as, b :: bs =>
    if a < b then true
    else if b < a then false
    else ltChars as bs

/-- Python `a < b` on strings. -/
def ltStr (a b : String) : Bool :=
  ltChars a.data b.data

/-- Insert a string into a strictly sorted list, skipping duplicates. -/
def insertSortedUnique (x : String) : List String → List String
  | [] => [x]
  | y :: ys =>
    if x = y then y :: ys
    else if ltStr x y then x :: y :: ys
    else y :: insertSortedUnique x ys

/-- Python `sorted(list(set(l)))`: the lexicographically sorted list of the
distinct elements of `l`. -/
def sortedUnique (l : List String) : List String :=
  l.foldr insertSortedUnique []

/-- The selection loop of the constructor (lines 66-75): match each pattern
in order with `fnmatch.filter`, fail on the first pattern with no matches,
otherwise concatenate the matches in pattern order. -/
def gatherMatches (all_lfaa : List String) : List String → Except StationError (List String)
  | [] => .ok []
  | p :: ps =>
    let matched := fnmatchFilter all_lfaa p
    if matched = [] then .error (.emptySelection p)
    else
      match gatherMatches all_lfaa ps with
      | .error e => .error e
      | .ok rest => .ok (matched ++ rest)

/-- Selection resolution (lines 66-76): the gathered pattern matches,
deduplicated and sorted (`sorted(list(set(requested_lfaa)))`). -/
def resolveList (all_lfaa : List String) (patterns : List String) :
    Except StationError (List String) :=
  match gatherMatches all_lfaa patterns with
  | .error e => .error e
  | .ok requested => .ok (sortedUnique requested)

/-- A constructed `LowStation`: the retained table rows (`self.coordinates`
after column dropping, keeping name and ECEF), the member names
(`self.lfaa_names`), and the per-member ENU vectors (`self.lfaa_enu`). -/
structure LowStation where
  station_type : String
  station_name : String
  parent_station : String
  station_rot_angle : ℚ
  coordinates : List (String × P3)
  lfaa_names : List String
  lfaa_enu : List P3
  deriving DecidableEq

/-- Lines 94-114 of the constructor, common to both branches: extract the
member names and ECEF vectors from the retained rows and convert the latter
to ENU with the parent station's reference point. -/
def finishStation (ext : Externals) (station_type station_name parent_station : String)
    (rows : List (String × P3)) : LowStation :=
  { station_type := station_type
    station_name := station_name
    parent_station := parent_station
    station_rot_angle := ext.rotationOf parent_station
    coordinates := rows
    lfaa_names := rows.map Prod.fst
    lfaa_enu := (rows.map Prod.snd).map (ext.toEnu parent_station) }

/-- `LowStation.__init__`.  The Python signature defaults `station_name` and
`parent_station` to None; they are modelled as plain strings because the full
branch ignores them and the substation branch dereferences them (a None
parent dies inside the external rotation lookup, outside this core). -/
def LowStation.init (ext : Externals) (station_type station_name parent_station : String)
    (lfaa_list : Option String) : Except StationError LowStation :=
  if station_type ∉ VALID_STATION_TYPES ext then
    .error (.unknownStation station_type)
  else if station_type = "substation" then
    match ext.catalog parent_station with
    | none => .error (.missingCatalog parent_station)
    | some all_coordinates =>
      let all_lfaa := all_coordinates.map Prod.fst
      let gathered := match lfaa_list with
        | none => Except.ok all_lfaa
        | some s => gatherMatches all_lfaa (splitComma s)
      match gathered with
      | .error e => .error e
      | .ok requested0 =>
        let requested_lfaa := sortedUnique requested0
        let rows := all_coordinates.filter (fun r => requested_lfaa.contains r.1)
        .ok (finishStation ext station_type station_name parent_station rows)
  else
    match ext.catalog station_type with
    | none => .error (.missingCatalog station_type)
    | some all_coordinates =>
      .ok (finishStation ext station_type station_type station_type all_coordinates)

/-- Unit handling shared by both query methods (lines 134-141 and 167-173):
a bare float passes through, a length quantity is converted to metres, any
other quantity raises. -/
def convertToMetres : DistArg → Except StationError ℚ
  | .float v => .ok v
  | .qty q =>
    if q.unitDim = "length" then .ok (q.value * q.unitScale)
    else .error (.incompatibleUnit q)

/-- Decides the real-number comparison `Real.sqrt s < d` for `0 ≤ s`
(proved as `sqrtLt_iff_real` below); this embeds
`numpy.sqrt(e^2 + n^2) < distance` with exact arithmetic. -/
def sqrtLt (s d : ℚ) : Bool :=
  decide (0 < d ∧ s < d * d)

/-- Decides the real-number comparison `d < Real.sqrt s` for `0 ≤ s`
(proved as `sqrtGt_iff_real` below); this embeds
`numpy.sqrt(e^2 + n^2) > distance` with exact arithmetic. -/
def sqrtGt (s d : ℚ) : Bool :=
  decide (d < 0 ∨ d * d < s)

/-- Squared planar (East-North) distance of an ENU point from the origin. -/
def planarDistSq (p : P3) : ℚ :=
  p.x * p.x + p.y * p.y

/-- Squared planar (East-North) distance between two ENU points. -/
def neighbourDistSq (p c : P3) : ℚ :=
  (p.x - c.x) * (p.x - c.x) + (p.y - c.y) * (p.y - c.y)

/-- The member names selected by `filter_lfaa_by_distance` after unit
conversion (lines 142-153): the boolean mask over the parallel arrays
`lfaa_names` / `lfaa_enu`, with strict `<` (or strict `>` when inverted). -/
def LowStation.filterNames (st : LowStation) (d : ℚ) (invert : Bool) : List String :=
  if invert then
    ((st.lfaa_names.zip st.lfaa_enu).filter
      (fun pr => sqrtGt (planarDistSq pr.2) d)).map Prod.fst
  else
    ((st.lfaa_names.zip st.lfaa_enu).filter
      (fun pr => sqrtLt (planarDistSq pr.2) d)).map Prod.fst

/-- `LowStation.filter_lfaa_by_distance`. -/
def LowStation.filter_lfaa_by_distance (st : LowStation) (distance : DistArg)
    (invert : Bool) : Except StationError String :=
  match convertToMetres distance with
  | .error e => .error e
  | .ok d => .ok (joinComma (st.filterNames d invert))

/-- The member names selected by `get_neighbour_lfaa` after unit conversion
(lines 174-186): locate the first occurrence of `ref_lfaa`, take its ENU
vector, and mask the members at strict planar distance `< d` from it. -/
def LowStation.neighbourNames (st : LowStation) (ref_lfaa : String) (d : ℚ) :
    Except StationError (List String) :=
  match indexOfName st.lfaa_names ref_lfaa with
  | none => .error (.unknownAntenna ref_lfaa)
  | some i =>
    match st.lfaa_enu[i]? with
    | none => .error .internalIndexError
    | some ref_coords =>
      .ok (((st.lfaa_names.zip st.lfaa_enu).filter
        (fun pr => sqrtLt (neighbourDistSq pr.2 ref_coords) d)).map Prod.fst)

/-- `LowStation.get_neighbour_lfaa`. -/
def LowStation.get_neighbour_lfaa (st : LowStation) (ref_lfaa : String)
    (distance : DistArg) : Except StationError String :=
  match convertToMetres distance with
  | .error e => .error e
  | .ok d =>
    match st.neighbourNames ref_lfaa d with
    | .error e => .error e
    | .ok ns => .ok (joinComma ns)

/-- The loop of `get_lfaa_coordinates` (lines 206-219): for each requested
string, the rows whose names fully match it as a regular expression; error
on the first requested string matching no row, else one entry (the list of
matching ECEF vectors) per requested string. -/
def LowStation.lookupCoords (st : LowStation) : List String → Except StationError (List (List P3))
  | [] => .ok []
  | n :: ns =>
    let mask := st.coordinates.filter (fun r => reMatch n.data r.1.data)
    if mask = [] then .error (.invalidLFAA n st.station_name)
    else
      match st.lookupCoords ns with
      | .error e => .error e
      | .ok rest => .ok (mask.map Prod.snd :: rest)

/-- `LowStation.get_lfaa_coordinates`. -/
def LowStation.get_lfaa_coordinates (st : LowStation) (lfaa_names : String) :
    Except StationError (List (List P3)) :=
  st.lookupCoords (splitComma lfaa_names)

/-! ### Bridging lemmas: the decidable embeddings agree with the idealised
real/library semantics they stand for. -/

/-- `ltChars` is the library lexicographic order on character lists. -/
theorem ltChars_iff : ∀ as bs : List Char, ltChars as bs = true ↔ as < bs := by
  intro as
  induction as with
  | nil =>
    intro bs
    cases bs with
    | nil =>
      simp only [ltChars, Bool.false_eq_true, false_iff]
      exact List.Lex.not_nil_right _ _
    | cons b bs =>
      simp only [ltChars, true_iff]
      exact List.Lex.nil
  | cons a as ih =>
    intro bs
    cases bs with
    | nil =>
      simp only [ltChars, Bool.false_eq_true, false_iff]
      exact List.Lex.not_nil_right _ _
    | cons b bs =>
      simp only [ltChars]
      by_cases hab : a < b
      · simp only [hab, if_true, true_iff]
        exact List.Lex.rel hab
      · by_cases hba : b < a
        · simp only [hab, hba, if_false, if_true, Bool.false_eq_true, false_iff]
          intro h
          cases h with
          | cons h => exact lt_irrefl _ hba
          | rel h => exact hab h
        · have hco : a = b := le_antisymm (not_lt.mp hba) (not_lt.mp hab)
          subst hco
          simp only [hab, hba, if_false, ih bs]
          exact (List.Lex.cons_iff).symm

/-- `ltStr` is the library order on `String` (Python string comparison). -/
theorem ltStr_iff (a b : String) : ltStr a b = true ↔ a < b := by
  rw [String.lt_iff_toList_lt]
  exact ltChars_iff a.data b.data

/-- `sqrtLt s d` decides `Real.sqrt s < d`, the idealised reading of the
source comparison `numpy.sqrt(e^2 + n^2) < distance`. -/
theorem sqrtLt_iff_real (s d : ℚ) :
    sqrtLt s d = true ↔ Real.sqrt (s : ℝ) < (d : ℝ) := by
  rw [sqrtLt, decide_eq_true_iff]
  constructor
  · rintro ⟨hd, hlt⟩
    have hd' : (0 : ℝ) < (d : ℝ) := by exact_mod_cast hd
    rw [Real.sqrt_lt' hd']
    have : (s : ℝ) < (d : ℝ) * (d : ℝ) := by exact_mod_cast hlt
    calc (s : ℝ) < (d : ℝ) * (d : ℝ) := this
    _ = (d : ℝ) ^ 2 := by ring
  · intro h
    have hd' : (0 : ℝ) < (d : ℝ) := lt_of_le_of_lt (Real.sqrt_nonneg _) h
    have hd : 0 < d := by exact_mod_cast hd'
    refine ⟨hd, ?_⟩
    have := (Real.sqrt_lt' hd').mp h
    have h2 : (s : ℝ) < (d : ℝ) * (d : ℝ) := by
      calc (s : ℝ) < (d : ℝ) ^ 2 := this
      _ = (d : ℝ) * (d : ℝ) := by ring
    exact_mod_cast h2

/-- `sqrtGt s d` decides `d < Real.sqrt s`, the idealised reading of the
source comparison `numpy.sqrt(e^2 + n^2) > distance`. -/
theorem sqrtGt_iff_real (s d : ℚ) :
    sqrtGt s d = true ↔ (d : ℝ) < Real.sqrt (s : ℝ) := by
  rw [sqrtGt, decide_eq_true_iff]
  constructor
  · intro h
    cases h with
    | inl hd =>
      have hd' : (d : ℝ) < 0 := by exact_mod_cast hd
      exact lt_of_lt_of_le hd' (Real.sqrt_nonneg _)
    | inr hlt =>
      rcases le_or_lt 0 d with hd | hd
      · have hd' : (0 : ℝ) ≤ (d : ℝ) := by exact_mod_cast hd
        rw [Real.lt_sqrt hd']
        have : (d : ℝ) * (d : ℝ) < (s : ℝ) := by exact_mod_cast hlt
        calc (d : ℝ) ^ 2 = (d : ℝ) * (d : ℝ) := by ring
        _ < (s : ℝ) := this
      · have hd' : (d : ℝ) < 0 := by exact_mod_cast hd
        exact lt_of_lt_of_le hd' (Real.sqrt_nonneg _)
  · intro h
    rcases lt_or_le d 0 with hd | hd
    · exact Or.inl hd
    · refine Or.inr ?_
      have hd' : (0 : ℝ) ≤ (d : ℝ) := by exact_mod_cast hd
      have := (Real.lt_sqrt hd').mp h
      have h2 : (d : ℝ) * (d : ℝ) < (s : ℝ) := by
        calc (d : ℝ) * (d : ℝ) = (d : ℝ) ^ 2 := by ring
        _ < (s : ℝ) := this
      exact_mod_cast h2

/-- `sqrtLt` and `sqrtGt` cannot both hold: a strict-inside and a
strict-outside test on the same squared distance are exclusive. -/
theorem not_sqrtLt_and_sqrtGt (s d : ℚ) :
    ¬(sqrtLt s d = true ∧ sqrtGt s d = true) := by
  rintro ⟨h1, h2⟩
  rw [sqrtLt, decide_eq_true_iff] at h1
  rw [sqrtGt, decide_eq_true_iff] at h2
  rcases h1 with ⟨hd, hlt⟩
  cases h2 with
  | inl h => exact absurd hd (not_lt.mpr (le_of_lt h))
  | inr h => exact absurd (lt_trans hlt h) (lt_irrefl _)

/-! ### sortedUnique: Python sorted(list(set(l))) -/

/-- Membership in an insertion. -/
theorem mem_insertSortedUnique (x a : String) (l : List String) :
    a ∈ insertSortedUnique x l ↔ a = x ∨ a ∈ l := by
  induction l with
  | nil => simp [insertSortedUnique]
  | cons y ys ih =>
    simp only [insertSortedUnique]
    by_cases hxy : x = y
    · subst hxy
      rw [if_pos rfl, List.mem_cons]
      tauto
    · rw [if_neg hxy]
      by_cases hlt : ltStr x y = true
      · rw [if_pos hlt]
        exact List.mem_cons
      · rw [if_neg hlt]
        simp only [List.mem_cons, ih]
        tauto

/-- Insertion preserves strict sortedness. -/
theorem pairwise_insertSortedUnique (x : String) (l : List String)
    (h : List.Pairwise (fun a b => a < b) l) :
    List.Pairwise (fun a b => a < b) (insertSortedUnique x l) := by
  induction l with
  | nil => simp [insertSortedUnique]
  | cons y ys ih =>
    simp only [insertSortedUnique]
    by_cases hxy : x = y
    · subst hxy
      rw [if_pos rfl]
      exact h
    · rw [if_neg hxy]
      by_cases hlt : ltStr x y = true
      · rw [if_pos hlt]
        have hxylt : x < y := (ltStr_iff x y).mp hlt
        refine List.Pairwise.cons ?_ h
        intro z hz
        rcases List.mem_cons.mp hz with hzy | hzys
        · subst hzy; exact hxylt
        · exact lt_trans hxylt (List.rel_of_pairwise_cons h hzys)
      · rw [if_neg hlt]
        have hyx : y < x := by
          rcases lt_trichotomy x y with hc | hc | hc
          · exact absurd ((ltStr_iff x y).mpr hc) (by simpa using hlt)
          · exact absurd hc hxy
          · exact hc
        rcases List.pairwise_cons.mp h with ⟨hy, hys⟩
        refine List.pairwise_cons.mpr ⟨?_, ih hys⟩
        intro z hz
        rcases (mem_insertSortedUnique x z ys).mp hz with hzx | hzys
        · subst hzx; exact hyx
        · exact hy z hzys

/-- Membership in `sortedUnique`. -/
theorem mem_sortedUnique (l : List String) (a : String) :
    a ∈ sortedUnique l ↔ a ∈ l := by
  induction l with
  | nil => simp [sortedUnique]
  | cons x xs ih =>
    simp only [sortedUnique, List.foldr_cons, List.mem_cons]
    rw [show List.foldr insertSortedUnique [] xs = sortedUnique xs from rfl] at *
    rw [mem_insertSortedUnique, ih]

/-- `sortedUnique` is strictly sorted. -/
theorem pairwise_sortedUnique (l : List String) :
    List.Pairwise (fun a b => a < b) (sortedUnique l) := by
  induction l with
  | nil => simp [sortedUnique]
  | cons x xs ih =>
    exact pairwise_insertSortedUnique x _ ih

/-- `sortedUnique` has no duplicates. -/
theorem nodup_sortedUnique (l : List String) : (sortedUnique l).Nodup := by
  exact (pairwise_sortedUnique l).imp (fun h => ne_of_lt h)

/-- Two strictly sorted lists with the same members are equal. -/
theorem strictSorted_eq_of_mem_iff :
    ∀ l₁ l₂ : List String, List.Pairwise (fun a b => a < b) l₁ →
      List.Pairwise (fun a b => a < b) l₂ → (∀ a, a ∈ l₁ ↔ a ∈ l₂) → l₁ = l₂ := by
  intro l₁
  induction l₁ with
  | nil =>
    intro l₂ _ _ hmem
    cases l₂ with
    | nil => rfl
    | cons y ys => exact absurd ((hmem y).mpr (List.mem_cons_self _ _)) (List.not_mem_nil y)
  | cons x xs ih =>
    intro l₂ h₁ h₂ hmem
    cases l₂ with
    | nil => exact absurd ((hmem x).mp (List.mem_cons_self _ _)) (List.not_mem_nil x)
    | cons y ys =>
      have hxy : x = y := by
        rcases List.mem_cons.mp ((hmem x).mp (List.mem_cons_self _ _)) with h | hxys
        · exact h
        · rcases List.mem_cons.mp ((hmem y).mpr (List.mem_cons_self _ _)) with h | hyxs
          · exact h.symm
          · exact absurd (lt_trans (List.rel_of_pairwise_cons h₂ hxys)
              (List.rel_of_pairwise_cons h₁ hyxs)) (lt_irrefl _)
      subst hxy
      have htail : ∀ a, a ∈ xs ↔ a ∈ ys := by
        intro a
        constructor
        · intro ha
          rcases List.mem_cons.mp ((hmem a).mp (List.mem_cons_of_mem x ha)) with h | h
          · subst h
            exact absurd (List.rel_of_pairwise_cons h₁ ha) (lt_irrefl _)
          · exact h
        · intro ha
          rcases List.mem_cons.mp ((hmem a).mpr (List.mem_cons_of_mem x ha)) with h | h
          · subst h
            exact absurd (List.rel_of_pairwise_cons h₂ ha) (lt_irrefl _)
          · exact h
      rw [ih ys (List.pairwise_cons.mp h₁).2 (List.pairwise_cons.mp h₂).2 htail]

/-! ### Glob matching of literal names -/

/-- A character with no glob meaning. -/
def literalChar (c : Char) : Bool :=
  !(c = '*' || c = '?' || c = '[')

/-- A name containing no glob metacharacters: as a pattern it matches
exactly itself. -/
def literalName (s : String) : Bool :=
  s.data.all literalChar

/-- With enough fuel, a metacharacter-free pattern matches exactly itself. -/
theorem globMatchF_literal :
    ∀ (f : Nat) (p s : List Char), p.length + s.length < f →
      (∀ c ∈ p, literalChar c = true) → (globMatchF f p s = true ↔ p = s) := by
  intro f
  induction f with
  | zero =>
    intro p s hlen _
    exact absurd hlen (Nat.not_lt_zero _)
  | succ f ih =>
    intro p s hlen hlit
    cases p with
    | nil =>
      simp only [globMatchF, List.isEmpty_iff]
      constructor
      · intro h; exact h.symm
      · intro h; exact h.symm
    | cons c ps =>
      have hc : literalChar c = true := hlit c (List.mem_cons_self _ _)
      have hstar : ¬(c = '*') := by
        intro h; rw [literalChar, h] at hc; simp at hc
      have hq : ¬(c = '?') := by
        intro h; rw [literalChar, h] at hc; simp at hc
      have hbr : ¬(c = '[') := by
        intro h; rw [literalChar, h] at hc; simp at hc
      simp only [globMatchF, if_neg hstar, if_neg hq, if_neg hbr]
      cases s with
      | nil =>
        simp
      | cons d srest =>
        have hlen2 : ps.length + srest.length < f := by
          simp only [List.length_cons] at hlen
          omega
        have hlit2 : ∀ x ∈ ps, literalChar x = true := by
          intro x hx; exact hlit x (List.mem_cons_of_mem _ hx)
        simp only [Bool.and_eq_true, decide_eq_true_eq, ih ps srest hlen2 hlit2,
          List.cons.injEq]

/-- A metacharacter-free name matches exactly itself under `globMatch`. -/
theorem globMatch_literal (n m : String) (h : literalName n = true) :
    globMatch n.data m.data = true ↔ n = m := by
  rw [globMatch]
  have hlit : ∀ c ∈ n.data, literalChar c = true := by
    intro c hc
    exact List.all_eq_true.mp h c hc
  rw [globMatchF_literal (n.data.length + m.data.length + 1) n.data m.data
    (Nat.lt_succ_self _) hlit]
  constructor
  · intro hdata
    cases n; cases m
    simp only at hdata
    rw [hdata]
  · intro hnm
    rw [hnm]

/-! ### The selection loop -/

/-- Membership in a successful `gatherMatches` run: the union of the
per-pattern matches. -/
theorem gatherMatches_ok_mem :
    ∀ (all_lfaa ps r : List String), gatherMatches all_lfaa ps = .ok r →
      ∀ a, a ∈ r ↔ ∃ p, p ∈ ps ∧ a ∈ fnmatchFilter all_lfaa p := by
  intro all_lfaa ps
  induction ps with
  | nil =>
    intro r h a
    simp only [gatherMatches, Except.ok.injEq] at h
    subst h
    simp
  | cons p ps ih =>
    intro r h a
    simp only [gatherMatches] at h
    by_cases hm : fnmatchFilter all_lfaa p = []
    · rw [if_pos hm] at h
      exact absurd h (by simp)
    · rw [if_neg hm] at h
      cases hg : gatherMatches all_lfaa ps with
      | error e =>
        rw [hg] at h
        exact absurd h (by simp)
      | ok rest =>
        rw [hg] at h
        simp only [Except.ok.injEq] at h
        subst h
        simp only [List.mem_append, List.mem_cons]
        rw [ih rest hg a]
        constructor
        · rintro (hf | ⟨q, hq, hfq⟩)
          · exact ⟨p, Or.inl rfl, hf⟩
          · exact ⟨q, Or.inr hq, hfq⟩
        · rintro ⟨q, hq | hq, hfq⟩
          · subst hq; exact Or.inl hfq
          · exact Or.inr ⟨q, hq, hfq⟩

/-- When some pattern matches nothing, `gatherMatches` fails with
`emptySelection` naming an offending pattern (the first one). -/
theorem gatherMatches_error_first :
    ∀ (all_lfaa ps : List String), (∃ p, p ∈ ps ∧ fnmatchFilter all_lfaa p = []) →
      ∃ q, q ∈ ps ∧ fnmatchFilter all_lfaa q = [] ∧
        gatherMatches all_lfaa ps = .error (.emptySelection q) := by
  intro all_lfaa ps
  induction ps with
  | nil =>
    rintro ⟨p, hp, _⟩
    exact absurd hp (List.not_mem_nil p)
  | cons p ps ih =>
    rintro ⟨q, hq, hfq⟩
    by_cases hm : fnmatchFilter all_lfaa p = []
    · refine ⟨p, List.mem_cons_self _ _, hm, ?_⟩
      simp only [gatherMatches]
      rw [if_pos hm]
    · have hqps : q ∈ ps := by
        rcases List.mem_cons.mp hq with hqp | hqps
        · subst hqp; exact absurd hfq hm
        · exact hqps
      rcases ih ⟨q, hqps, hfq⟩ with ⟨q2, hq2, hfq2, herr⟩
      refine ⟨q2, List.mem_cons_of_mem _ hq2, hfq2, ?_⟩
      simp only [gatherMatches]
      rw [if_neg hm, herr]

/-- When every pattern matches something, `gatherMatches` succeeds. -/
theorem gatherMatches_ok_of_forall :
    ∀ (all_lfaa ps : List String), (∀ p, p ∈ ps → fnmatchFilter all_lfaa p ≠ []) →
      ∃ r, gatherMatches all_lfaa ps = .ok r := by
  intro all_lfaa ps
  induction ps with
  | nil =>
    intro _
    exact ⟨[], rfl⟩
  | cons p ps ih =>
    intro h
    have hm : fnmatchFilter all_lfaa p ≠ [] := h p (List.mem_cons_self _ _)
    rcases ih (fun q hq => h q (List.mem_cons_of_mem _ hq)) with ⟨rest, hrest⟩
    refine ⟨fnmatchFilter all_lfaa p ++ rest, ?_⟩
    simp only [gatherMatches]
    rw [if_neg hm, hrest]

/-! ### Generic list helpers -/

/-- The first components of a zip form an order-preserving sublist of the
first list. -/
theorem zip_map_fst_sublist {α β : Type} :
    ∀ (l₁ : List α) (l₂ : List β), List.Sublist ((l₁.zip l₂).map Prod.fst) l₁ := by
  intro l₁
  induction l₁ with
  | nil =>
    intro l₂
    simp
  | cons x xs ih =>
    intro l₂
    cases l₂ with
    | nil => simp
    | cons y ys =>
      simp only [List.zip_cons_cons, List.map_cons]
      exact List.Sublist.cons₂ x (ih ys)

/-- In a list of pairs with duplicate-free keys, a key determines its value. -/
theorem keys_nodup_value_eq {α β : Type} :
    ∀ (l : List (α × β)), (l.map Prod.fst).Nodup →
      ∀ (a : α) (b c : β), (a, b) ∈ l → (a, c) ∈ l → b = c := by
  intro l
  induction l with
  | nil =>
    intro _ a b c hb _
    exact absurd hb (List.not_mem_nil _)
  | cons x xs ih =>
    intro hnd a b c hb hc
    rcases List.pairwise_cons.mp hnd with ⟨hx, hxs⟩
    rcases List.mem_cons.mp hb with hb1 | hb2
    · rcases List.mem_cons.mp hc with hc1 | hc2
      · rw [← hb1] at hc1
        exact (Prod.mk.injEq _ _ _ _).mp hc1.symm |>.2
      · exfalso
        have : a ∈ xs.map Prod.fst := by
          exact List.mem_map.mpr ⟨(a, c), hc2, rfl⟩
        have hax : x.1 = a := by rw [← hb1]
        exact (hax ▸ hx a this) rfl
    · rcases List.mem_cons.mp hc with hc1 | hc2
      · exfalso
        have : a ∈ xs.map Prod.fst := by
          exact List.mem_map.mpr ⟨(a, b), hb2, rfl⟩
        have hax : x.1 = a := by rw [← hc1]
        exact (hax ▸ hx a this) rfl
      · exact ih hxs a b c hb2 hc2

/-- `indexOfName` finds the first occurrence of a present name. -/
theorem indexOfName_mem :
    ∀ (ns : List String) (r : String), r ∈ ns →
      ∃ i, indexOfName ns r = some i ∧ ns[i]? = some r := by
  intro ns
  induction ns with
  | nil =>
    intro r hr
    exact absurd hr (List.not_mem_nil r)
  | cons n ns ih =>
    intro r hr
    by_cases hn : n = r
    · subst hn
      exact ⟨0, by simp [indexOfName], by simp⟩
    · have hr2 : r ∈ ns := by
        rcases List.mem_cons.mp hr with h | h
        · exact absurd h.symm hn
        · exact h
      rcases ih r hr2 with ⟨i, hfind, hget⟩
      refine ⟨i + 1, ?_, ?_⟩
      · simp [indexOfName, hn, hfind]
      · simpa using hget

/-- Shared concrete fixture station: members A (origin), B (5 m East),
C (3 m East); parallel name/ENU arrays and matching row table. -/
def stationW : LowStation :=
  { station_type := "S8-1"
    station_name := "S8-1"
    parent_station := "S8-1"
    station_rot_angle := 0
    coordinates := [("A", ⟨0, 0, 0⟩), ("B", ⟨5, 0, 0⟩), ("C", ⟨3, 0, 0⟩)]
    lfaa_names := ["A", "B", "C"]
    lfaa_enu := [⟨0, 0, 0⟩, ⟨5, 0, 0⟩, ⟨3, 0, 0⟩] }

/-- Unfolding of the non-inverted filter. -/
theorem filterNames_false (st : LowStation) (d : ℚ) :
    st.filterNames d false =
      ((st.lfaa_names.zip st.lfaa_enu).filter
        (fun pr => sqrtLt (planarDistSq pr.2) d)).map Prod.fst := rfl

/-- Unfolding of the inverted filter. -/
theorem filterNames_true (st : LowStation) (d : ℚ) :
    st.filterNames d true =
      ((st.lfaa_names.zip st.lfaa_enu).filter
        (fun pr => sqrtGt (planarDistSq pr.2) d)).map Prod.fst := rfl

/-- C3: for every Station (under the Station invariant of duplicate-free
member names) and every radius, the invert=False and invert=True results of
filter_lfaa_by_distance are disjoint, unconditionally; and any member whose
planar distance equals the radius exactly (squared distance equal to the
squared radius, with the radius non-negative) appears in neither result:
both comparisons are strict. -/
theorem c3_filter_disjoint_and_boundary (st : LowStation) (d : ℚ) (n : String) (p : P3)
    (hnd : st.lfaa_names.Nodup) :
    (∀ m, m ∈ st.filterNames d false → m ∉ st.filterNames d true) ∧
    ((n, p) ∈ st.lfaa_names.zip st.lfaa_enu → planarDistSq p = d * d → 0 ≤ d →
      n ∉ st.filterNames d false ∧ n ∉ st.filterNames d true) := by
  have hkeys : ((st.lfaa_names.zip st.lfaa_enu).map Prod.fst).Nodup :=
    (zip_map_fst_sublist st.lfaa_names st.lfaa_enu).nodup hnd
  have hval := keys_nodup_value_eq (st.lfaa_names.zip st.lfaa_enu) hkeys
  refine ⟨?_, fun hmem hb hd => ⟨?_, ?_⟩⟩
  · intro m hA hB
    rw [filterNames_false] at hA
    rw [filterNames_true] at hB
    rcases List.mem_map.mp hA with ⟨⟨m1, p1⟩, hA1, hA2⟩
    rcases List.mem_map.mp hB with ⟨⟨m2, p2⟩, hB1, hB2⟩
    simp only at hA2 hB2
    rcases List.mem_filter.mp hA1 with ⟨hz1, hp1⟩
    rcases List.mem_filter.mp hB1 with ⟨hz2, hp2⟩
    have hz1m : (m, p1) ∈ st.lfaa_names.zip st.lfaa_enu := by
      rw [← hA2]; exact hz1
    have hz2m : (m, p2) ∈ st.lfaa_names.zip st.lfaa_enu := by
      rw [← hB2]; exact hz2
    have hpp : p1 = p2 := hval m p1 p2 hz1m hz2m
    subst hpp
    exact not_sqrtLt_and_sqrtGt (planarDistSq p1) d ⟨hp1, hp2⟩
  · intro hA
    rw [filterNames_false] at hA
    rcases List.mem_map.mp hA with ⟨⟨m1, p1⟩, hA1, hA2⟩
    simp only at hA2
    rcases List.mem_filter.mp hA1 with ⟨hz1, hp1⟩
    have hz1n : (n, p1) ∈ st.lfaa_names.zip st.lfaa_enu := by
      rw [← hA2]; exact hz1
    have hpp : p1 = p := hval n p1 p hz1n hmem
    subst hpp
    rw [hb, sqrtLt] at hp1
    rcases of_decide_eq_true hp1 with ⟨_, habs⟩
    exact absurd habs (lt_irrefl _)
  · intro hB
    rw [filterNames_true] at hB
    rcases List.mem_map.mp hB with ⟨⟨m1, p1⟩, hB1, hB2⟩
    simp only at hB2
    rcases List.mem_filter.mp hB1 with ⟨hz1, hp1⟩
    have hz1n : (n, p1) ∈ st.lfaa_names.zip st.lfaa_enu := by
      rw [← hB2]; exact hz1
    have hpp : p1 = p := hval n p1 p hz1n hmem
    subst hpp
    rw [hb, sqrtGt] at hp1
    rcases of_decide_eq_true hp1 with habs | habs
    · exact absurd hd (not_le.mpr habs)
    · exact absurd habs (lt_irrefl _)

/-- C3 witness: on the fixture station with radius 3, the member A (strictly
inside) is excluded from the inverted result by disjointness, and the member
C sits exactly on the boundary (distance 3) and belongs to neither result. -/
theorem c3_witness :
    "A" ∉ stationW.filterNames 3 true ∧
    "C" ∉ stationW.filterNames 3 false ∧ "C" ∉ stationW.filterNames 3 true := by
  have happ := c3_filter_disjoint_and_boundary stationW 3 "C" ⟨3, 0, 0⟩ (by decide)
  have hAmem : "A" ∈ stationW.filterNames 3 false := by
    norm_num [filterNames_false, sqrtLt, planarDistSq, stationW, List.filter,
      List.zip, List.zipWith]
  exact ⟨happ.1 "A" hAmem, happ.2 (by decide) (by norm_num [planarDistSq]) (by norm_num)⟩

/-- C4: for every Station satisfying the parallel-array invariant, every
member name and every radius r > 0, get_neighbour_lfaa succeeds and its
result contains the reference element itself (its distance 0 passes the
strict test). -/
theorem c4_neighbour_contains_ref (st : LowStation) (ref : String) (r : ℚ)
    (hlen : st.lfaa_names.length = st.lfaa_enu.length)
    (hmem : ref ∈ st.lfaa_names) (hr : 0 < r) :
    ∃ ns, st.neighbourNames ref r = .ok ns ∧ ref ∈ ns ∧
      st.get_neighbour_lfaa ref (.float r) = .ok (joinComma ns) := by
  rcases indexOfName_mem st.lfaa_names ref hmem with ⟨i, hfind, hget⟩
  have hilen : i < st.lfaa_names.length := by
    by_contra hcon
    rw [List.getElem?_eq_none (Nat.le_of_not_lt hcon)] at hget
    exact absurd hget (by simp)
  have hienu : i < st.lfaa_enu.length := hlen ▸ hilen
  have hgetn : st.lfaa_names[i] = ref := by
    rw [List.getElem?_eq_getElem hilen] at hget
    exact Option.some.inj hget
  have hgete : st.lfaa_enu[i]? = some st.lfaa_enu[i] := List.getElem?_eq_getElem hienu
  refine ⟨((st.lfaa_names.zip st.lfaa_enu).filter
      (fun pr => sqrtLt (neighbourDistSq pr.2 st.lfaa_enu[i]) r)).map Prod.fst, ?_, ?_, ?_⟩
  · rw [LowStation.neighbourNames, hfind]
    dsimp only
    rw [hgete]
  · have hzlen : i < (st.lfaa_names.zip st.lfaa_enu).length := by
      rw [List.length_zip, ← hlen, Nat.min_self]
      exact hilen
    have hzget : (st.lfaa_names.zip st.lfaa_enu)[i] = (ref, st.lfaa_enu[i]) := by
      rw [List.getElem_zip, hgetn]
    have hzmem : (ref, st.lfaa_enu[i]) ∈ st.lfaa_names.zip st.lfaa_enu := by
      rw [← hzget]
      exact List.getElem_mem hzlen
    have hdist : neighbourDistSq st.lfaa_enu[i] st.lfaa_enu[i] = 0 := by
      rw [neighbourDistSq]; ring
    have hpred : sqrtLt (neighbourDistSq st.lfaa_enu[i] st.lfaa_enu[i]) r = true := by
      rw [hdist, sqrtLt]
      exact decide_eq_true (⟨hr, mul_pos hr hr⟩)
    exact List.mem_map.mpr ⟨(ref, st.lfaa_enu[i]),
      List.mem_filter.mpr ⟨hzmem, hpred⟩, rfl⟩
  · rw [LowStation.get_neighbour_lfaa, convertToMetres]
    dsimp only
    rw [LowStation.neighbourNames, hfind]
    dsimp only
    rw [hgete]

/-- C4 witness: on the fixture station, A is among its own neighbours at
radius 1. -/
theorem c4_witness :
    ∃ ns, stationW.neighbourNames "A" 1 = .ok ns ∧ "A" ∈ ns ∧
      stationW.get_neighbour_lfaa "A" (.float 1) = .ok (joinComma ns) :=
  c4_neighbour_contains_ref stationW "A" 1 (by decide) (by decide) (by norm_num)

/-- C8: for every Station, a quantity whose unit dimension is not length
makes both query methods fail with incompatibleUnit (the full result is the
error: no filtering is performed), while a bare float is used as metres
directly and a length quantity behaves exactly like the bare float obtained
by converting it to metres. -/
theorem c8_unit_handling (st : LowStation) (q : Quantity) (v : ℚ) (invert : Bool)
    (ref : String) :
    (q.unitDim ≠ "length" →
      st.filter_lfaa_by_distance (.qty q) invert = .error (.incompatibleUnit q) ∧
      st.get_neighbour_lfaa ref (.qty q) = .error (.incompatibleUnit q)) ∧
    st.filter_lfaa_by_distance (.float v) invert = .ok (joinComma (st.filterNames v invert)) ∧
    (q.unitDim = "length" →
      st.filter_lfaa_by_distance (.qty q) invert =
        st.filter_lfaa_by_distance (.float (q.value * q.unitScale)) invert ∧
      st.get_neighbour_lfaa ref (.qty q) =
        st.get_neighbour_lfaa ref (.float (q.value * q.unitScale))) := by
  refine ⟨?_, ?_, ?_⟩
  · intro hq
    constructor
    · rw [LowStation.filter_lfaa_by_distance, convertToMetres, if_neg hq]
    · rw [LowStation.get_neighbour_lfaa, convertToMetres, if_neg hq]
  · rw [LowStation.filter_lfaa_by_distance, convertToMetres]
  · intro hq
    constructor
    · rw [LowStation.filter_lfaa_by_distance, LowStation.filter_lfaa_by_distance,
        convertToMetres, convertToMetres, if_pos hq]
    · rw [LowStation.get_neighbour_lfaa, LowStation.get_neighbour_lfaa,
        convertToMetres, convertToMetres, if_pos hq]

/-- C8 witness: on the fixture station a time quantity is rejected by both
query methods with incompatibleUnit. -/
theorem c8_witness :
    stationW.filter_lfaa_by_distance (.qty ⟨10, "time", 1⟩) false =
      .error (.incompatibleUnit ⟨10, "time", 1⟩) ∧
    stationW.get_neighbour_lfaa "A" (.qty ⟨10, "time", 1⟩) =
      .error (.incompatibleUnit ⟨10, "time", 1⟩) :=
  (c8_unit_handling stationW ⟨10, "time", 1⟩ 2 false "A").1 (by decide)

/-! ### Constructor unfolding lemmas -/

/-- The tag "substation" is always accepted by the type check. -/
theorem substation_mem_valid (ext : Externals) :
    "substation" ∈ VALID_STATION_TYPES ext := by
  rw [VALID_STATION_TYPES]
  exact List.mem_append.mpr (Or.inr (List.mem_singleton.mpr rfl))

/-- An invalid station type fails immediately, before the catalog is read. -/
theorem init_unknown (ext : Externals) (ty sn par : String) (ll : Option String)
    (h : ty ∉ VALID_STATION_TYPES ext) :
    LowStation.init ext ty sn par ll = .error (.unknownStation ty) := by
  rw [LowStation.init, if_pos h]

/-- Substation branch with a missing parent coordinates table. -/
theorem init_substation_missing (ext : Externals) (sn par : String) (ll : Option String)
    (h : ext.catalog par = none) :
    LowStation.init ext "substation" sn par ll = .error (.missingCatalog par) := by
  rw [LowStation.init, if_neg (not_not_intro (substation_mem_valid ext)), if_pos rfl, h]

/-- Substation branch with no selection string: every catalog row survives
the isin filter against the sorted-deduplicated full name list. -/
theorem init_substation_none (ext : Externals) (sn par : String)
    (rows : List (String × P3)) (h : ext.catalog par = some rows) :
    LowStation.init ext "substation" sn par none =
      .ok (finishStation ext "substation" sn par
        (rows.filter (fun r => (sortedUnique (rows.map Prod.fst)).contains r.1))) := by
  rw [LowStation.init, if_neg (not_not_intro (substation_mem_valid ext)), if_pos rfl, h]

/-- Substation branch where the selection loop fails. -/
theorem init_substation_some_error (ext : Externals) (sn par s : String)
    (rows : List (String × P3)) (e : StationError)
    (hcat : ext.catalog par = some rows)
    (hg : gatherMatches (rows.map Prod.fst) (splitComma s) = .error e) :
    LowStation.init ext "substation" sn par (some s) = .error e := by
  rw [LowStation.init, if_neg (not_not_intro (substation_mem_valid ext)), if_pos rfl, hcat]
  dsimp only
  rw [hg]

/-- Substation branch where the selection loop succeeds. -/
theorem init_substation_some_ok (ext : Externals) (sn par s : String)
    (rows : List (String × P3)) (req0 : List String)
    (hcat : ext.catalog par = some rows)
    (hg : gatherMatches (rows.map Prod.fst) (splitComma s) = .ok req0) :
    LowStation.init ext "substation" sn par (some s) =
      .ok (finishStation ext "substation" sn par
        (rows.filter (fun r => (sortedUnique req0).contains r.1))) := by
  rw [LowStation.init, if_neg (not_not_intro (substation_mem_valid ext)), if_pos rfl, hcat]
  dsimp only
  rw [hg]

/-- Full-station branch: the whole table is retained. -/
theorem init_full (ext : Externals) (ty sn par : String) (ll : Option String)
    (rows : List (String × P3))
    (hv : ty ∈ VALID_STATION_TYPES ext) (hns : ty ≠ "substation")
    (hcat : ext.catalog ty = some rows) :
    LowStation.init ext ty sn par ll = .ok (finishStation ext ty ty ty rows) := by
  rw [LowStation.init, if_neg (not_not_intro hv), if_neg hns, hcat]

/-- Full-station branch with a missing coordinates table. -/
theorem init_full_missing (ext : Externals) (ty sn par : String) (ll : Option String)
    (hv : ty ∈ VALID_STATION_TYPES ext) (hns : ty ≠ "substation")
    (hcat : ext.catalog ty = none) :
    LowStation.init ext ty sn par ll = .error (.missingCatalog ty) := by
  rw [LowStation.init, if_neg (not_not_intro hv), if_neg hns, hcat]

/-- Shared concrete externals fixture: one valid station "S8-1" with a
three-row catalog in lexicographic order. -/
def extW : Externals :=
  { validNames := ["S8-1"]
    catalog := fun s =>
      if s = "S8-1" then
        some [("SB01-01", ⟨0, 0, 0⟩), ("SB01-02", ⟨1, 0, 0⟩), ("SB02-01", ⟨2, 0, 0⟩)]
      else none
    rotationOf := fun _ => 0
    toEnu := fun _ p => p }

/-- C5: during substation construction, if any comma-separated selection
pattern matches no antenna name of the full table, construction fails with
emptySelection naming an offending pattern (the first failing one): there is
no silent no-op. -/
theorem c5_empty_selection (ext : Externals) (sn par ll p : String)
    (rows : List (String × P3))
    (hcat : ext.catalog par = some rows)
    (hp : p ∈ splitComma ll)
    (hempty : fnmatchFilter (rows.map Prod.fst) p = []) :
    ∃ q, q ∈ splitComma ll ∧ fnmatchFilter (rows.map Prod.fst) q = [] ∧
      LowStation.init ext "substation" sn par (some ll) = .error (.emptySelection q) := by
  rcases gatherMatches_error_first (rows.map Prod.fst) (splitComma ll) ⟨p, hp, hempty⟩
    with ⟨q, hq, hfq, herr⟩
  exact ⟨q, hq, hfq, init_substation_some_error ext sn par ll rows _ hcat herr⟩

/-- C5 witness: the pattern SB99-* matches nothing in the fixture catalog and
substation construction fails with emptySelection naming it. -/
theorem c5_witness :
    ∃ q, q ∈ splitComma "SB99-*,SB01-01" ∧
      fnmatchFilter ["SB01-01", "SB01-02", "SB02-01"] q = [] ∧
      LowStation.init extW "substation" "sub_s8_1" "S8-1" (some "SB99-*,SB01-01") =
        .error (.emptySelection q) := by
  have h := c5_empty_selection extW "sub_s8_1" "S8-1" "SB99-*,SB01-01" "SB99-*"
    [("SB01-01", ⟨0, 0, 0⟩), ("SB01-02", ⟨1, 0, 0⟩), ("SB02-01", ⟨2, 0, 0⟩)]
    (by decide) (by decide) (by decide)
  simpa using h

/-- C7: a None pattern list selects the whole table: substation construction
succeeds and the membership is exactly the catalog's name column, unchanged
and in catalog order; a full station likewise retains the whole table in
catalog order. -/
theorem c7_none_selects_all (ext : Externals) (ty sn par : String) (ll : Option String)
    (rows : List (String × P3)) :
    (ext.catalog par = some rows →
      ∃ st, LowStation.init ext "substation" sn par none = .ok st ∧
        st.lfaa_names = rows.map Prod.fst) ∧
    (ty ∈ ext.validNames → ty ≠ "substation" → ext.catalog ty = some rows →
      ∃ st, LowStation.init ext ty sn par ll = .ok st ∧
        st.lfaa_names = rows.map Prod.fst) := by
  constructor
  · intro hcat
    refine ⟨_, init_substation_none ext sn par rows hcat, ?_⟩
    show (rows.filter
      (fun r => (sortedUnique (rows.map Prod.fst)).contains r.1)).map Prod.fst
        = rows.map Prod.fst
    have hall : rows.filter
        (fun r => (sortedUnique (rows.map Prod.fst)).contains r.1) = rows := by
      rw [List.filter_eq_self]
      intro r hr
      have hmm : r.1 ∈ sortedUnique (rows.map Prod.fst) :=
        (mem_sortedUnique _ _).mpr (List.mem_map.mpr ⟨r, hr, rfl⟩)
      exact List.elem_eq_true_of_mem hmm
    rw [hall]
  · intro hv hns hcat
    refine ⟨_, init_full ext ty sn par ll rows
      (by rw [VALID_STATION_TYPES]; exact List.mem_append.mpr (Or.inl hv)) hns hcat, rfl⟩

/-- C7 witness: on the fixture externals, a substation of S8-1 with no
selection string has exactly the catalog's names in catalog order. -/
theorem c7_witness :
    ∃ st, LowStation.init extW "substation" "sub" "S8-1" none = .ok st ∧
      st.lfaa_names = ["SB01-01", "SB01-02", "SB02-01"] :=
  (c7_none_selects_all extW "S8-1" "sub" "S8-1" none
    [("SB01-01", ⟨0, 0, 0⟩), ("SB01-02", ⟨1, 0, 0⟩), ("SB02-01", ⟨2, 0, 0⟩)]).1 (by decide)

/-- C2 (amended): a station_type outside validNames plus the tag
"substation" fails with unknownStation, and the failure is independent of
the catalog: the same error results under any replacement catalog, so the
check precedes any I/O.  (The parent name of a substation is not similarly
protected: see the counterexample.) -/
theorem c2_unknown_station_before_io (ext : Externals) (ty sn par : String)
    (ll : Option String) (cat2 : String → Option (List (String × P3)))
    (h : ty ∉ VALID_STATION_TYPES ext) :
    LowStation.init ext ty sn par ll = .error (.unknownStation ty) ∧
    LowStation.init { ext with catalog := cat2 } ty sn par ll =
      .error (.unknownStation ty) := by
  exact ⟨init_unknown ext ty sn par ll h, init_unknown _ ty sn par ll h⟩

/-- C2 witness: the invalid type "B0" is rejected with unknownStation both
with the fixture catalog and with an empty catalog. -/
theorem c2_witness :
    LowStation.init extW "B0" "x" "y" none = .error (.unknownStation "B0") ∧
    LowStation.init { extW with catalog := fun _ => none } "B0" "x" "y" none =
      .error (.unknownStation "B0") :=
  c2_unknown_station_before_io extW "B0" "x" "y" none (fun _ => none) (by decide)

/-- Externals for the C2 counterexample: a coordinates table exists for the
name "BOGUS" even though "BOGUS" is not a valid station name. -/
def extC2 : Externals :=
  { validNames := ["S8-1"]
    catalog := fun s => if s = "BOGUS" then some [("A", ⟨0, 0, 0⟩)] else none
    rotationOf := fun _ => 0
    toEnu := fun _ p => p }

/-- C2 counterexample: substation construction anchored to the parent name
"BOGUS", which is not in the externally supplied valid set, does not fail
with unknownStation: it succeeds, because the constructor validates only the
literal tag "substation" and never the parent station name. -/
theorem c2_counterexample :
    "BOGUS" ∉ extC2.validNames ∧
    (LowStation.init extC2 "substation" "sub" "BOGUS" none).isOk = true := by
  decide

/-- Field computation of `finishStation`. -/
theorem finishStation_fields (ext : Externals) (ty sn par : String)
    (rows : List (String × P3)) :
    (finishStation ext ty sn par rows).lfaa_names = rows.map Prod.fst ∧
    (finishStation ext ty sn par rows).lfaa_enu =
      (rows.map Prod.snd).map (ext.toEnu par) ∧
    (finishStation ext ty sn par rows).parent_station = par := ⟨rfl, rfl, rfl⟩

/-- C9: every successfully constructed Station has as many member names as
local ENU vectors; its member names are duplicate-free whenever the catalog
table it was built from has duplicate-free names; a substation's members are
a subset of the parent catalog's names; and for a valid non-substation name
with an existing table, construction succeeds. -/
theorem c9_invariants (ext : Externals) (ty sn par : String) (ll : Option String)
    (st : LowStation) (rows : List (String × P3)) :
    (LowStation.init ext ty sn par ll = .ok st →
      st.lfaa_names.length = st.lfaa_enu.length ∧
      (ext.catalog st.parent_station = some rows → (rows.map Prod.fst).Nodup →
        st.lfaa_names.Nodup) ∧
      (ty = "substation" → ext.catalog st.parent_station = some rows →
        ∀ n, n ∈ st.lfaa_names → n ∈ rows.map Prod.fst)) ∧
    (ty ∈ ext.validNames → ty ≠ "substation" → ext.catalog ty = some rows →
      ∃ st2, LowStation.init ext ty sn par ll = .ok st2) := by
  constructor
  · intro h
    by_cases hv : ty ∈ VALID_STATION_TYPES ext
    · by_cases hsub : ty = "substation"
      · subst hsub
        cases hcat : ext.catalog par with
        | none =>
          rw [init_substation_missing ext sn par ll hcat] at h
          exact absurd h (by simp)
        | some rows0 =>
          have key : ∀ pred : String × P3 → Bool,
              st = finishStation ext "substation" sn par (rows0.filter pred) →
              st.lfaa_names.length = st.lfaa_enu.length ∧
              (ext.catalog st.parent_station = some rows → (rows.map Prod.fst).Nodup →
                st.lfaa_names.Nodup) ∧
              ("substation" = "substation" → ext.catalog st.parent_station = some rows →
                ∀ n, n ∈ st.lfaa_names → n ∈ rows.map Prod.fst) := by
            intro pred hst
            subst hst
            refine ⟨by simp [finishStation], ?_, ?_⟩
            · intro hcat2 hnd
              have hpar : ext.catalog par = some rows := hcat2
              rw [hcat] at hpar
              have hrr : rows0 = rows := Option.some.inj hpar
              subst hrr
              show ((rows0.filter pred).map Prod.fst).Nodup
              exact ((List.filter_sublist rows0).map Prod.fst).nodup hnd
            · intro _ hcat2 n hn
              have hpar : ext.catalog par = some rows := hcat2
              rw [hcat] at hpar
              have hrr : rows0 = rows := Option.some.inj hpar
              subst hrr
              rcases List.mem_map.mp hn with ⟨r, hr, hrn⟩
              exact List.mem_map.mpr ⟨r, (List.mem_filter.mp hr).1, hrn⟩
          cases ll with
          | none =>
            rw [init_substation_none ext sn par rows0 hcat] at h
            exact key _ (Except.ok.inj h).symm
          | some s =>
            cases hg : gatherMatches (rows0.map Prod.fst) (splitComma s) with
            | error e =>
              rw [init_substation_some_error ext sn par s rows0 e hcat hg] at h
              exact absurd h (by simp)
            | ok req0 =>
              rw [init_substation_some_ok ext sn par s rows0 req0 hcat hg] at h
              exact key _ (Except.ok.inj h).symm
      · cases hcat : ext.catalog ty with
        | none =>
          rw [init_full_missing ext ty sn par ll hv hsub hcat] at h
          exact absurd h (by simp)
        | some rows0 =>
          rw [init_full ext ty sn par ll rows0 hv hsub hcat] at h
          have hst : st = finishStation ext ty ty ty rows0 := (Except.ok.inj h).symm
          subst hst
          refine ⟨by simp [finishStation], ?_, ?_⟩
          · intro hcat2 hnd
            have hpar : ext.catalog ty = some rows := hcat2
            rw [hcat] at hpar
            have hrr : rows0 = rows := Option.some.inj hpar
            subst hrr
            exact hnd
          · intro habs
            exact absurd habs hsub
    · rw [init_unknown ext ty sn par ll hv] at h
      exact absurd h (by simp)
  · intro hvN hns hcat
    exact ⟨_, init_full ext ty sn par ll rows
      (by rw [VALID_STATION_TYPES]; exact List.mem_append.mpr (Or.inl hvN)) hns hcat⟩

/-- The station produced by building a substation of the fixture externals
with the selection string SB01-*. -/
def stSubW : LowStation :=
  { station_type := "substation"
    station_name := "sub"
    parent_station := "S8-1"
    station_rot_angle := 0
    coordinates := [("SB01-01", ⟨0, 0, 0⟩), ("SB01-02", ⟨1, 0, 0⟩)]
    lfaa_names := ["SB01-01", "SB01-02"]
    lfaa_enu := [⟨0, 0, 0⟩, ⟨1, 0, 0⟩] }

/-- C9 witness: a substation of the fixture station selecting SB01-* has as
many names as ENU vectors and duplicate-free names, and the valid full
station name constructs successfully. -/
theorem c9_witness :
    stSubW.lfaa_names.length = stSubW.lfaa_enu.length ∧
    stSubW.lfaa_names.Nodup ∧
    (∃ st2, LowStation.init extW "S8-1" "x" "y" none = .ok st2) :=
  have h := (c9_invariants extW "substation" "sub" "S8-1" (some "SB01-*") stSubW
    [("SB01-01", ⟨0, 0, 0⟩), ("SB01-02", ⟨1, 0, 0⟩), ("SB02-01", ⟨2, 0, 0⟩)]).1
    (by decide)
  ⟨h.1, h.2.1 (by decide) (by decide),
    (c9_invariants extW "S8-1" "x" "y" none stSubW
      [("SB01-01", ⟨0, 0, 0⟩), ("SB01-02", ⟨1, 0, 0⟩), ("SB02-01", ⟨2, 0, 0⟩)]).2
      (by decide) (by decide) (by decide)⟩

/-- C1 (amended): both query operations return names in the Station's member
order: their result is an order-preserving sublist of lfaa_names (so never
distance order), and the member order itself is the catalog row order
restricted to the membership, for full stations and substations alike
(lexicographic only when the catalog happens to be sorted). -/
theorem c1_query_order_is_member_order (st : LowStation) (d r : ℚ) (invert : Bool)
    (ref : String) (ns : List String) (ext : Externals) (ty sn par : String)
    (ll : Option String) (st2 : LowStation) (rows : List (String × P3)) :
    List.Sublist (st.filterNames d invert) st.lfaa_names ∧
    (st.neighbourNames ref r = .ok ns → List.Sublist ns st.lfaa_names) ∧
    (LowStation.init ext ty sn par ll = .ok st2 →
      ext.catalog st2.parent_station = some rows →
      List.Sublist st2.lfaa_names (rows.map Prod.fst)) := by
  have hsub : ∀ pred : String × P3 → Bool,
      List.Sublist (((st.lfaa_names.zip st.lfaa_enu).filter pred).map Prod.fst)
        st.lfaa_names := by
    intro pred
    exact List.Sublist.trans
      ((List.filter_sublist (st.lfaa_names.zip st.lfaa_enu)).map Prod.fst)
      (zip_map_fst_sublist st.lfaa_names st.lfaa_enu)
  refine ⟨?_, ?_, ?_⟩
  · cases invert with
    | false => rw [filterNames_false]; exact hsub _
    | true => rw [filterNames_true]; exact hsub _
  · intro h
    rw [LowStation.neighbourNames] at h
    cases hidx : indexOfName st.lfaa_names ref with
    | none =>
      rw [hidx] at h
      exact absurd h (by simp)
    | some i =>
      rw [hidx] at h
      dsimp only at h
      cases hg : st.lfaa_enu[i]? with
      | none =>
        rw [hg] at h
        exact absurd h (by simp)
      | some rc =>
        rw [hg] at h
        dsimp only at h
        have hns := Except.ok.inj h
        rw [← hns]
        exact hsub _
  · intro h hcat2
    by_cases hv : ty ∈ VALID_STATION_TYPES ext
    · by_cases hsubst : ty = "substation"
      · subst hsubst
        cases hcat : ext.catalog par with
        | none =>
          rw [init_substation_missing ext sn par ll hcat] at h
          exact absurd h (by simp)
        | some rows0 =>
          have key : ∀ pred : String × P3 → Bool,
              st2 = finishStation ext "substation" sn par (rows0.filter pred) →
              List.Sublist st2.lfaa_names (rows.map Prod.fst) := by
            intro pred hst
            subst hst
            have hpar : ext.catalog par = some rows := hcat2
            rw [hcat] at hpar
            have hrr : rows0 = rows := Option.some.inj hpar
            subst hrr
            exact (List.filter_sublist rows0).map Prod.fst
          cases ll with
          | none =>
            rw [init_substation_none ext sn par rows0 hcat] at h
            exact key _ (Except.ok.inj h).symm
          | some s =>
            cases hgat : gatherMatches (rows0.map Prod.fst) (splitComma s) with
            | error e =>
              rw [init_substation_some_error ext sn par s rows0 e hcat hgat] at h
              exact absurd h (by simp)
            | ok req0 =>
              rw [init_substation_some_ok ext sn par s rows0 req0 hcat hgat] at h
              exact key _ (Except.ok.inj h).symm
      · cases hcat : ext.catalog ty with
        | none =>
          rw [init_full_missing ext ty sn par ll hv hsubst hcat] at h
          exact absurd h (by simp)
        | some rows0 =>
          rw [init_full ext ty sn par ll rows0 hv hsubst hcat] at h
          have hst : st2 = finishStation ext ty ty ty rows0 := (Except.ok.inj h).symm
          subst hst
          have hpar : ext.catalog ty = some rows := hcat2
          rw [hcat] at hpar
          have hrr : rows0 = rows := Option.some.inj hpar
          subst hrr
          exact List.Sublist.refl _
    · rw [init_unknown ext ty sn par ll hv] at h
      exact absurd h (by simp)

/-- C1 witness: on the fixture station, a radius filter and the neighbour
query around A each return a sublist of the member order, and the SB01-*
substation's members are a sublist of the catalog names. -/
theorem c1_witness :
    List.Sublist (stationW.filterNames 3 false) stationW.lfaa_names ∧
    List.Sublist ["A"] stationW.lfaa_names ∧
    List.Sublist stSubW.lfaa_names
      (List.map Prod.fst
        [("SB01-01", (⟨0, 0, 0⟩ : P3)), ("SB01-02", ⟨1, 0, 0⟩), ("SB02-01", ⟨2, 0, 0⟩)]) := by
  have happ := c1_query_order_is_member_order stationW 3 1 false "A" ["A"] extW
    "substation" "sub" "S8-1" (some "SB01-*") stSubW
    [("SB01-01", ⟨0, 0, 0⟩), ("SB01-02", ⟨1, 0, 0⟩), ("SB02-01", ⟨2, 0, 0⟩)]
  refine ⟨happ.1, happ.2.1 ?_, happ.2.2 (by decide) (by decide)⟩
  norm_num [LowStation.neighbourNames, indexOfName, neighbourDistSq, sqrtLt, stationW,
    List.filter, List.zip, List.zipWith]

/-- Externals for the C1 counterexample: the catalog of S8-1 lists B before
A, so the catalog order is not lexicographic. -/
def extC1 : Externals :=
  { validNames := ["S8-1"]
    catalog := fun s =>
      if s = "S8-1" then some [("B", ⟨1, 0, 0⟩), ("A", ⟨2, 0, 0⟩)] else none
    rotationOf := fun _ => 0
    toEnu := fun _ p => p }

/-- The substation built from `extC1` with the select-everything pattern. -/
def stC1 : LowStation :=
  { station_type := "substation"
    station_name := "sub"
    parent_station := "S8-1"
    station_rot_angle := 0
    coordinates := [("B", ⟨1, 0, 0⟩), ("A", ⟨2, 0, 0⟩)]
    lfaa_names := ["B", "A"]
    lfaa_enu := [⟨1, 0, 0⟩, ⟨2, 0, 0⟩] }

/-- C1 counterexample: a filtered substation built over a non-sorted catalog
returns query results in catalog order B,A, which is not lexicographic order:
the claim's ordering characterisation for filtered substations fails. -/
theorem c1_counterexample :
    LowStation.init extC1 "substation" "sub" "S8-1" (some "*") = .ok stC1 ∧
    stC1.filterNames 100 false = ["B", "A"] ∧
    stC1.filter_lfaa_by_distance (.float 100) false = .ok "B,A" ∧
    ¬ List.Pairwise (fun a b : String => a < b) ["B", "A"] := by
  have heval : stC1.filterNames 100 false = ["B", "A"] := by
    norm_num [filterNames_false, sqrtLt, planarDistSq, stC1, List.filter,
      List.zip, List.zipWith]
  refine ⟨by decide, heval, ?_, ?_⟩
  · rw [LowStation.filter_lfaa_by_distance, convertToMetres]
    dsimp only
    rw [heval]
    decide
  · intro hpw
    have hlt : ("B" : String) < "A" :=
      List.rel_of_pairwise_cons hpw (List.mem_cons_self _ _)
    have hb : ltStr "B" "A" = true := (ltStr_iff _ _).mpr hlt
    exact absurd hb (by decide)

/-- A successful `gatherMatches` run had no empty pattern. -/
theorem gatherMatches_ok_forall_ne :
    ∀ (all_lfaa ps r : List String), gatherMatches all_lfaa ps = .ok r →
      ∀ p, p ∈ ps → fnmatchFilter all_lfaa p ≠ [] := by
  intro all_lfaa ps
  induction ps with
  | nil =>
    intro r _ p hp
    exact absurd hp (List.not_mem_nil p)
  | cons q ps ih =>
    intro r h p hp
    simp only [gatherMatches] at h
    by_cases hm : fnmatchFilter all_lfaa q = []
    · rw [if_pos hm] at h
      exact absurd h (by simp)
    · rw [if_neg hm] at h
      rcases List.mem_cons.mp hp with hpq | hpps
      · subst hpq; exact hm
      · cases hg : gatherMatches all_lfaa ps with
        | error e =>
          rw [hg] at h
          exact absurd h (by simp)
        | ok rest =>
          exact ih rest hg p hpps

/-- C6 (amended): a successful selection resolution is strictly sorted
lexicographically, duplicate-free, and is exactly the union of the
per-pattern matches; it is order-independent (a permutation of the pattern
list resolves to the same list); and it is idempotent provided the member
names contain no glob metacharacters (so that a resolved name used as a
pattern matches exactly itself). -/
theorem c6_selection_resolution (all_lfaa ps ps2 r : List String) :
    (resolveList all_lfaa ps = .ok r →
      List.Pairwise (fun a b => a < b) r ∧ r.Nodup ∧
      (∀ a, a ∈ r ↔ ∃ p, p ∈ ps ∧ a ∈ fnmatchFilter all_lfaa p)) ∧
    (List.Perm ps ps2 → resolveList all_lfaa ps = .ok r →
      resolveList all_lfaa ps2 = .ok r) ∧
    ((∀ n, n ∈ all_lfaa → literalName n = true) → resolveList all_lfaa ps = .ok r →
      resolveList all_lfaa r = .ok r) := by
  have hok : ∀ req, gatherMatches all_lfaa ps = .ok req →
      resolveList all_lfaa ps = .ok (sortedUnique req) := by
    intro req hg
    rw [resolveList, hg]
  have hdestruct : resolveList all_lfaa ps = .ok r →
      ∃ req, gatherMatches all_lfaa ps = .ok req ∧ r = sortedUnique req := by
    intro h
    rw [resolveList] at h
    cases hg : gatherMatches all_lfaa ps with
    | error e =>
      rw [hg] at h
      exact absurd h (by simp)
    | ok req =>
      rw [hg] at h
      exact ⟨req, rfl, (Except.ok.inj h).symm⟩
  refine ⟨?_, ?_, ?_⟩
  · intro h
    rcases hdestruct h with ⟨req, hg, hr⟩
    subst hr
    refine ⟨pairwise_sortedUnique req, nodup_sortedUnique req, ?_⟩
    intro a
    rw [mem_sortedUnique]
    exact gatherMatches_ok_mem all_lfaa ps req hg a
  · intro hperm h
    rcases hdestruct h with ⟨req, hg, hr⟩
    subst hr
    have hne2 : ∀ p, p ∈ ps2 → fnmatchFilter all_lfaa p ≠ [] := by
      intro p hp
      exact gatherMatches_ok_forall_ne all_lfaa ps req hg p (hperm.mem_iff.mpr hp)
    rcases gatherMatches_ok_of_forall all_lfaa ps2 hne2 with ⟨req2, hg2⟩
    rw [resolveList, hg2]
    dsimp only
    have hmemiff : ∀ a, a ∈ sortedUnique req2 ↔ a ∈ sortedUnique req := by
      intro a
      rw [mem_sortedUnique, mem_sortedUnique,
        gatherMatches_ok_mem all_lfaa ps req hg a,
        gatherMatches_ok_mem all_lfaa ps2 req2 hg2 a]
      constructor
      · rintro ⟨p, hp, hf⟩
        exact ⟨p, hperm.mem_iff.mpr hp, hf⟩
      · rintro ⟨p, hp, hf⟩
        exact ⟨p, hperm.mem_iff.mp hp, hf⟩
    rw [strictSorted_eq_of_mem_iff (sortedUnique req2) (sortedUnique req)
      (pairwise_sortedUnique req2) (pairwise_sortedUnique req) hmemiff]
  · intro hlit h
    rcases hdestruct h with ⟨req, hg, hr⟩
    have hmemr : ∀ a, a ∈ r ↔ ∃ p, p ∈ ps ∧ a ∈ fnmatchFilter all_lfaa p := by
      intro a
      rw [hr, mem_sortedUnique]
      exact gatherMatches_ok_mem all_lfaa ps req hg a
    have hrall : ∀ a, a ∈ r → a ∈ all_lfaa := by
      intro a ha
      rcases (hmemr a).mp ha with ⟨p, _, hf⟩
      exact (List.mem_filter.mp hf).1
    have hliteral : ∀ n a, n ∈ r → (a ∈ fnmatchFilter all_lfaa n ↔ a ∈ all_lfaa ∧ n = a) := by
      intro n a hn
      rw [fnmatchFilter, List.mem_filter]
      constructor
      · rintro ⟨hal, hm⟩
        exact ⟨hal, (globMatch_literal n a (hlit n (hrall n hn))).mp hm⟩
      · rintro ⟨hal, hm⟩
        exact ⟨hal, (globMatch_literal n a (hlit n (hrall n hn))).mpr hm⟩
    have hne : ∀ p, p ∈ r → fnmatchFilter all_lfaa p ≠ [] := by
      intro p hp hempty
      have : p ∈ fnmatchFilter all_lfaa p := (hliteral p p hp).mpr ⟨hrall p hp, rfl⟩
      rw [hempty] at this
      exact absurd this (List.not_mem_nil p)
    rcases gatherMatches_ok_of_forall all_lfaa r hne with ⟨req2, hg2⟩
    rw [resolveList, hg2]
    dsimp only
    have hsorted : List.Pairwise (fun a b => a < b) r := by
      rw [hr]; exact pairwise_sortedUnique req
    have hmemiff : ∀ a, a ∈ sortedUnique req2 ↔ a ∈ r := by
      intro a
      rw [mem_sortedUnique, gatherMatches_ok_mem all_lfaa r req2 hg2 a]
      constructor
      · rintro ⟨p, hp, hf⟩
        have := (hliteral p a hp).mp hf
        rw [← this.2]
        exact hp
      · intro ha
        exact ⟨a, ha, (hliteral a a ha).mpr ⟨hrall a ha, rfl⟩⟩
    rw [strictSorted_eq_of_mem_iff (sortedUnique req2) r
      (pairwise_sortedUnique req2) hsorted hmemiff]

/-- C6 witness: resolving B,A over the members A, B yields the sorted list
A, B (order-independence instance), which is strictly sorted and stable
under re-resolution (idempotence instance). -/
theorem c6_witness :
    List.Pairwise (fun a b : String => a < b) ["A", "B"] ∧
    resolveList ["A", "B"] ["A", "B"] = .ok ["A", "B"] ∧
    resolveList ["A", "B"] ["A", "B"] = .ok ["A", "B"] :=
  have happ := c6_selection_resolution ["A", "B"] ["B", "A"] ["A", "B"] ["A", "B"]
  ⟨(happ.1 (by decide)).1,
   happ.2.1 (by decide) (by decide),
   happ.2.2 (by decide) (by decide)⟩

/-- C6 counterexample: over the member names A? and AB (the first contains a
glob metacharacter), the pattern A[?] resolves to exactly A?, but resolving
that result again matches both members: selection resolution is not
idempotent in general. -/
theorem c6_counterexample :
    resolveList ["A?", "AB"] ["A[?]"] = .ok ["A?"] ∧
    resolveList ["A?", "AB"] ["A?"] = .ok ["A?", "AB"] ∧
    (["A?", "AB"] : List String) ≠ ["A?"] := by
  decide

/-- A successful coordinate lookup returns one entry per requested string. -/
theorem lookupCoords_ok_length (st : LowStation) :
    ∀ (names : List String) (out : List (List P3)),
      st.lookupCoords names = .ok out → out.length = names.length := by
  intro names
  induction names with
  | nil =>
    intro out h
    simp only [LowStation.lookupCoords, Except.ok.injEq] at h
    subst h
    rfl
  | cons n ns ih =>
    intro out h
    simp only [LowStation.lookupCoords] at h
    by_cases hm : st.coordinates.filter (fun r => reMatch n.data r.1.data) = []
    · rw [if_pos hm] at h
      exact absurd h (by simp)
    · rw [if_neg hm] at h
      cases hrec : st.lookupCoords ns with
      | error e =>
        rw [hrec] at h
        exact absurd h (by simp)
      | ok rest =>
        rw [hrec] at h
        have hout := Except.ok.inj h
        rw [← hout, List.length_cons, List.length_cons, ih rest hrec]

/-- A failed coordinate lookup names a requested string that full-matches no
retained row. -/
theorem lookupCoords_error (st : LowStation) :
    ∀ (names : List String) (e : StationError), st.lookupCoords names = .error e →
      ∃ q, q ∈ names ∧ e = .invalidLFAA q st.station_name ∧
        ∀ row, row ∈ st.coordinates → reMatch q.data row.1.data = false := by
  intro names
  induction names with
  | nil =>
    intro e h
    exact absurd h (by simp [LowStation.lookupCoords])
  | cons n ns ih =>
    intro e h
    simp only [LowStation.lookupCoords] at h
    by_cases hm : st.coordinates.filter (fun r => reMatch n.data r.1.data) = []
    · rw [if_pos hm] at h
      refine ⟨n, List.mem_cons_self _ _, (Except.error.inj h).symm, ?_⟩
      intro row hrow
      have := List.filter_eq_nil_iff.mp hm row hrow
      exact Bool.not_eq_true _ ▸ (by simpa using this)
    · rw [if_neg hm] at h
      cases hrec : st.lookupCoords ns with
      | error e2 =>
        rw [hrec] at h
        have he : e2 = e := by
          simpa using h
        subst he
        rcases ih e2 hrec with ⟨q, hq, hqe, hqrows⟩
        exact ⟨q, List.mem_cons_of_mem _ hq, hqe, hqrows⟩
      | ok rest =>
        rw [hrec] at h
        exact absurd h (by simp)

/-- When some requested string matches no row, the coordinate lookup fails. -/
theorem lookupCoords_error_of_exists (st : LowStation) :
    ∀ names : List String,
      (∃ q, q ∈ names ∧ ∀ row, row ∈ st.coordinates → reMatch q.data row.1.data = false) →
      ∃ e, st.lookupCoords names = .error e := by
  intro names
  induction names with
  | nil =>
    rintro ⟨q, hq, _⟩
    exact absurd hq (List.not_mem_nil q)
  | cons n ns ih =>
    rintro ⟨q, hq, hqrows⟩
    simp only [LowStation.lookupCoords]
    by_cases hm : st.coordinates.filter (fun r => reMatch n.data r.1.data) = []
    · rw [if_pos hm]
      exact ⟨_, rfl⟩
    · rw [if_neg hm]
      have hqns : q ∈ ns := by
        rcases List.mem_cons.mp hq with hqn | hqns
        · subst hqn
          exfalso
          apply hm
          rw [List.filter_eq_nil_iff]
          intro row hrow
          simp [hqrows row hrow]
        · exact hqns
      rcases ih ⟨q, hqns, hqrows⟩ with ⟨e, herr⟩
      rw [herr]
      exact ⟨e, rfl⟩

/-- C10: get_lfaa_coordinates matches each comma-separated requested string
against row names with regular-expression full-match semantics: a success
returns exactly one coordinate entry per requested string; a failure names a
requested string that full-matches no row; a requested string that matches
no row always causes a failure; and matching is regex full-match, not
literal equality (the pattern SB.1-01 matches the name SB01-01 without being
equal to it). -/
theorem c10_coordinate_lookup (st : LowStation) (s : String) :
    (∀ out, st.get_lfaa_coordinates s = .ok out →
      out.length = (splitComma s).length) ∧
    (∀ e, st.get_lfaa_coordinates s = .error e →
      ∃ q, q ∈ splitComma s ∧ e = .invalidLFAA q st.station_name ∧
        ∀ row, row ∈ st.coordinates → reMatch q.data row.1.data = false) ∧
    ((∃ q, q ∈ splitComma s ∧
        ∀ row, row ∈ st.coordinates → reMatch q.data row.1.data = false) →
      ∃ e, st.get_lfaa_coordinates s = .error e) ∧
    (reMatch "SB.1-01".data "SB01-01".data = true ∧ "SB.1-01" ≠ "SB01-01") := by
  refine ⟨?_, ?_, ?_, by decide⟩
  · intro out h
    exact lookupCoords_ok_length st (splitComma s) out h
  · intro e h
    exact lookupCoords_error st (splitComma s) e h
  · intro hex
    exact lookupCoords_error_of_exists st (splitComma s) hex

/-- C10 witness: on the fixture station, the regex request "." matches all
three one-character member names and returns one entry for the one requested
string; the request "Z" matches nothing and the error names it. -/
theorem c10_witness :
    ([[(⟨0, 0, 0⟩ : P3), ⟨5, 0, 0⟩, ⟨3, 0, 0⟩]] : List (List P3)).length
      = (splitComma ".").length ∧
    (∃ q, q ∈ splitComma "Z" ∧
      (StationError.invalidLFAA "Z" "S8-1") = .invalidLFAA q stationW.station_name ∧
      ∀ row, row ∈ stationW.coordinates → reMatch q.data row.1.data = false) :=
  ⟨(c10_coordinate_lookup stationW ".").1 [[⟨0, 0, 0⟩, ⟨5, 0, 0⟩, ⟨3, 0, 0⟩]] (by decide),
   (c10_coordinate_lookup stationW "Z").2.1 (.invalidLFAA "Z" "S8-1") (by decide)⟩
